import Mathlib

/-
Verification development for the data-cleaning core of the Visualization
repository (files clean_data.py and Clean_Data.py).

Modelling conventions (shallow embedding):
  * A pandas cell is `Cell`: the missing marker `na` (NaN/None), a numeric
    value `num q`, or a residual text value `str s`.
  * Python floats are idealised as exact rationals.  The non-finite float
    values (inf, nan) are not representable: the tokens "inf"/"nan" are
    treated as unparseable text.  No claim settled here depends on float
    rounding.
  * Python exceptions are `Option`: `none` models an exception escaping
    the modelled region (a raised, uncaught error), and exception handlers
    are modelled by matching on `none`.
  * A DataFrame is `Table`: a list of column names and a list of rows,
    each row a list of cells positionally aligned with the column names.
    In-place mutation is modelled by threading the table value.
-/

/-! ### List-of-characters primitives (Python `str` operations) -/

/-- Boolean test that `pat` is a prefix of the second list. -/
def begins : List Char → List Char → Bool
  | [], _ => true
  | _ :: _, [] => false
  | a :: as, b :: bs => (a == b) && begins as bs

/-- Python `pat in s` substring test. -/
def containsSub (pat : List Char) : List Char → Bool
  | [] => pat.isEmpty
  | b :: bs => begins pat (b :: bs) || containsSub pat bs

/-- Helper for `replaceAll` with a structural step bound: each step consumes
at least one character of the input, so `fuel ≥ length` never hits the
`0` case. -/
def replaceAllAux (pat repl : List Char) : Nat → List Char → List Char
  | _, [] => []
  | 0, l => l
  | Nat.succ fuel, a :: rest =>
    if begins pat (a :: rest) && !pat.isEmpty then
      repl ++ replaceAllAux pat repl fuel (List.drop pat.length (a :: rest))
    else
      a :: replaceAllAux pat repl fuel rest

/-- Python `s.replace(pat, repl)`: replace every (leftmost, non-overlapping)
occurrence of `pat` by `repl`.  Callers only use non-empty patterns; an
empty pattern leaves the string unchanged here. -/
def replaceAll (pat repl s : List Char) : List Char :=
  replaceAllAux pat repl s.length s

/-! ### Python `float(str)` (finite values; see header) -/

/-- Exact product of two rationals, written through `mkRat` so that it is
kernel-computable (the library's `Rat.mul` is irreducible). -/
def ratMul (a b : ℚ) : ℚ := mkRat (a.num * b.num) (a.den * b.den)

/-- Exact product of a rational and a natural number (kernel-computable). -/
def ratMulNat (q : ℚ) (n : Nat) : ℚ := mkRat (q.num * (n : ℤ)) q.den

def digitVal (c : Char) : Nat := c.toNat - 48

/-- Consume a CPython digit run: digits with single underscores allowed only
between digits.  Returns the accumulated value, the number of digits
consumed, and the unconsumed remainder.  `acc`/`cnt` are accumulators. -/
def takeDigits : List Char → Nat → Nat → Nat × Nat × List Char
  | [], acc, cnt => (acc, cnt, [])
  | c :: rest, acc, cnt =>
    if c.isDigit then
      takeDigits rest (10 * acc + digitVal c) (cnt + 1)
    else if c = '_' && cnt != 0 then
      match rest with
      | d :: rest2 =>
        if d.isDigit then takeDigits rest2 (10 * acc + digitVal d) (cnt + 1)
        else (acc, cnt, c :: rest)
      | [] => (acc, cnt, [c])
    else
      (acc, cnt, c :: rest)

/-- Optional exponent part `("e"|"E") [sign] digits`; the remainder must be
fully consumed. -/
def parseExpPart (m : ℚ) : List Char → Option ℚ
  | [] => some m
  | c :: rest =>
    if c = 'e' ∨ c = 'E' then
      let sr : Bool × List Char :=
        match rest with
        | s :: r => if s = '+' then (false, r) else if s = '-' then (true, r) else (false, s :: r)
        | [] => (false, [])
      match takeDigits sr.2 0 0 with
      | (ev, ecnt, r3) =>
        if ecnt = 0 then none
        else if r3.isEmpty then
          some (if sr.1 then mkRat m.num (m.den * 10 ^ ev)
            else mkRat (m.num * ((10 ^ ev : ℕ) : ℤ)) m.den)
        else none
    else none

/-- Unsigned CPython float literal: `digits [. [digits]] | . digits`,
optionally followed by an exponent; must consume the whole input. -/
def parseFin (s : List Char) : Option ℚ :=
  match takeDigits s 0 0 with
  | (ip, icnt, r1) =>
    match r1 with
    | '.' :: r2 =>
      match takeDigits r2 0 0 with
      | (fp, fcnt, r3) =>
        if icnt = 0 ∧ fcnt = 0 then none
        else parseExpPart (mkRat ((ip * 10 ^ fcnt + fp : ℕ) : ℤ) (10 ^ fcnt)) r3
    | _ => if icnt = 0 then none else parseExpPart (ip : ℚ) r1

def isWS (c : Char) : Bool :=
  c = ' ' ∨ c = '\t' ∨ c = '\n' ∨ c = '\r' ∨ c = '\x0b' ∨ c = '\x0c'

def trimWS (l : List Char) : List Char :=
  ((l.dropWhile isWS).reverse.dropWhile isWS).reverse

/-- Python `float(s)` on a string, restricted to finite results: strip
whitespace, optional sign, then a float literal consuming the rest. -/
def parseFloatChars (s : List Char) : Option ℚ :=
  match trimWS s with
  | [] => none
  | '+' :: r => parseFin r
  | '-' :: r => (parseFin r).map (fun q => -q)
  | r => parseFin r

def parseF? (s : String) : Option ℚ := parseFloatChars s.toList

/-! ### String-level wrappers -/

def strReplace (s pat repl : String) : String :=
  String.mk (replaceAll pat.toList repl.toList s.toList)

def strContains (s pat : String) : Bool :=
  containsSub pat.toList s.toList

/-! ### Cells and numeric helpers -/

/-- One pandas cell: missing (NaN/None), a (finite) float, or text. -/
inductive Cell
  | na
  | num (q : ℚ)
  | str (s : String)
deriving DecidableEq, Repr

/-- Cell is a float or the missing marker (no residual text). -/
def numericOrNa : Cell → Bool
  | Cell.str _ => false
  | _ => true

/-- Python `round` to nearest integer, ties to even (banker's rounding),
on the exact rational idealisation. -/
def pyRound (q : ℚ) : ℤ :=
  let f : ℤ := Int.fdiv q.num (q.den : ℤ)
  let r : ℚ := mkRat (q.num - f * (q.den : ℤ)) q.den
  if r < mkRat 1 2 then f
  else if mkRat 1 2 < r then f + 1
  else if f % 2 = 0 then f else f + 1

/-- `float(cell)` as used on the same-row `Total_Population` value inside the
percentage branch, composed with the subsequent `round`: a missing cell makes
`round` raise (`round(nan)` is a ValueError), numeric passes through, text is
parsed by `float`. -/
def cellFloat? : Cell → Option ℚ
  | Cell.na => none
  | Cell.num q => some q
  | Cell.str s => parseF? s

/-- `pd.to_numeric(column, errors='coerce')`, per cell: anything that is not
already numeric and does not parse as a number becomes missing. -/
def toNumericCell : Cell → Cell
  | Cell.na => Cell.na
  | Cell.num q => Cell.num q
  | Cell.str s =>
    match parseF? s with
    | some q => Cell.num q
    | none => Cell.na

/-- `column.astype(float)`, per cell: raises (`none`) on text that does not
parse as a float. -/
def astypeCell : Cell → Option Cell
  | Cell.na => some Cell.na
  | Cell.num q => some (Cell.num q)
  | Cell.str s => (parseF? s).map Cell.num

/-! ### The Field Normalizer (per-cell repair logic of `data_cleaner`) -/

/-- Pre-branch stripping, in the source's order:
`v.replace("%","")`, `(" sq km","")`, `(" km","")`, `(" m","")`, `(",","")`. -/
def stripUnits (s : String) : String :=
  strReplace (strReplace (strReplace (strReplace (strReplace s "%" "") " sq km" "") " km" "") " m" "") "," ""

/-- The government-type elif cascade, first match wins. -/
def govCode (v : String) : Option ℚ :=
  if strContains v "Democracy" then some 0
  else if strContains v "Republic" then some 1
  else if strContains v "Theocracy" then some 2
  else if strContains v "Monarchy" then some 3
  else if strContains v "Communist" then some 4
  else if strContains v "Territory" then some 5
  else if strContains v "Other" then some 6
  else none

/-- The decision-tree tail after the "illion" and "(percentage)" branches:
sentinel markers, government types, then a direct float parse.  `none`
models the final `float(v)` raising (the unresolved-cell case). -/
def restBranches (v : String) : Option Cell :=
  if strContains v "NEGL" || strContains v "negligible" || strContains v "Ile Amsterdam" then
    some Cell.na
  else
    match govCode v with
    | some q => some (Cell.num q)
    | none => (parseF? v).map Cell.num

/-- The inner `try` body of the normalizer, applied to the stripped text `v`.
`guarded = true` is the per-dataset variant (clean_data.py), whose percentage
branch requires `"Total_Population" in df.columns` (`hasTP`); the merged
variant (Clean_Data.py, `guarded = false`) has no such guard and its
`df["Total_Population"][idx]` lookup raises KeyError when the column is
absent (`tp? = none`).  `none` models an exception caught by the per-cell
handler (the cell is left unresolved). -/
def innerBranches (guarded hasTP : Bool) (tp? : Option Cell) (v : String) : Option Cell :=
  if strContains v "illion" then
    (parseF? (strReplace v "illion" "")).map (fun q => Cell.num (ratMulNat q 1000000))
  else if strContains v "(percentage)" && (!guarded || hasTP) then
    match parseF? (strReplace v " (percentage)" "") with
    | none => none
    | some q =>
      match tp? with
      | none => none
      | some tc =>
        match cellFloat? tc with
        | none => none
        | some p => some (Cell.num (mkRat (pyRound (ratMul (ratMul q (mkRat 1 100)) p)) 1))
  else restBranches v

/-- The Field Normalizer: one cell of `data_cleaner`'s nested loop.  Missing
cells are skipped; a direct `float(val)` win is written back; otherwise the
stripped text goes through the branch cascade; an unresolved cell is left
unchanged (the raised error is swallowed by `pass`). -/
def normalizeCell (guarded hasTP : Bool) (tp? : Option Cell) (val : Cell) : Cell :=
  match val with
  | Cell.na => Cell.na
  | Cell.num q => Cell.num q
  | Cell.str s =>
    match parseF? s with
    | some q => Cell.num q
    | none =>
      match innerBranches guarded hasTP tp? (stripUnits s) with
      | some c => c
      | none => Cell.str s

/-! ### Tables (DataFrames) -/

/-- A DataFrame: named columns and positionally aligned rows. -/
structure Table where
  cols : List String
  rows : List (List Cell)
deriving DecidableEq, Repr

/-- Index of the first column named `c` (pandas label lookup). -/
def idxOf? (c : String) : List String → Option Nat
  | [] => none
  | a :: rest => if a == c then some 0 else (idxOf? c rest).map (· + 1)

def colIdx (t : Table) (c : String) : Option Nat := idxOf? c t.cols

/-- The cells of the column at positional index `k`. -/
def colAt (k : Nat) (t : Table) : List Cell :=
  t.rows.map (fun r => r.getD k Cell.na)

/-- The cells of the column named `c` (empty if the column is absent). -/
def colCells (t : Table) (c : String) : List Cell :=
  match colIdx t c with
  | some j => colAt j t
  | none => []

/-! ### The Dataset Cleaner (`data_cleaner`) -/

/-- One normalization pass over column `j`: every cell of the column is
rewritten by the Field Normalizer.  The same-row `Total_Population` cell is
read from the table as it stands at the start of the pass (the pass itself
only writes column `j`, and a row's own cell is read before being written,
so this matches the in-place loop). -/
def normalizePass (guarded : Bool) (t : Table) (j : Nat) : Table :=
  { t with
    rows := t.rows.map (fun row =>
      row.set j (normalizeCell guarded (colIdx t "Total_Population").isSome
        ((colIdx t "Total_Population").bind (fun k => row.get? k))
        (row.getD j Cell.na))) }

/-- `df[i] = pd.to_numeric(df[i], errors='coerce')` on column `j`. -/
def coercePass (t : Table) (j : Nat) : Table :=
  { t with rows := t.rows.map (fun row => row.set j (toNumericCell (row.getD j Cell.na))) }

/-- Option-valued `List.map` (an exception in any element aborts). -/
def optMap (f : α → Option β) : List α → Option (List β)
  | [] => some []
  | a :: l =>
    match f a, optMap f l with
    | some b, some bs => some (b :: bs)
    | _, _ => none

/-- `df[i] = df[i].astype(float)` on column `j`: raises (`none`) if any cell
of the column fails to convert. -/
def astypePass (t : Table) (j : Nat) : Option Table :=
  (optMap (fun row => (astypeCell (row.getD j Cell.na)).map (fun v => row.set j v)) t.rows).map
    (fun rs => { t with rows := rs })

/-- `data_cleaner` of clean_data.py: for each requested column, normalize
every cell, then coerce the column with `pd.to_numeric(errors='coerce')`.
`none` models the KeyError of `df[i]` on a column absent from the table. -/
def data_cleaner (t : Table) : List String → Option Table
  | [] => some t
  | i :: rest =>
    match colIdx t i with
    | none => none
    | some j => data_cleaner (coercePass (normalizePass true t j) j) rest

/-- The nested `data_cleaner` of Clean_Data.py: no `Total_Population` guard
on the percentage branch, and the column coercion is `astype(float)`, which
raises on any cell left unresolved.  (Its `df_total[i] = df_total[i]...`
line refers to the same frame the function is called on.) -/
def data_cleaner_merged (t : Table) : List String → Option Table
  | [] => some t
  | i :: rest =>
    match colIdx t i with
    | none => none
    | some j =>
      match astypePass (normalizePass false t j) j with
      | none => none
      | some t2 => data_cleaner_merged t2 rest

/-! ### The override step (`clean_outliers`) -/

/-- `df["Country"] == country` on one row: text equality with the country
name; a missing or numeric cell never matches. -/
def matchC (jc : Nat) (country : String) (row : List Cell) : Bool :=
  match row.getD jc Cell.na with
  | Cell.str s => s == country
  | _ => false

/-- `df.loc[df["Country"] == country, cat] = np.nan` on one row. -/
def blankRow (jc j : Nat) (country : String) (row : List Cell) : List Cell :=
  if matchC jc country row then row.set j Cell.na else row

/-- One override pair, clean_data.py variant: the `if cat in df.columns`
guard skips an absent column before `df["Country"]` is ever evaluated;
with the column present, a missing `Country` column is a KeyError. -/
def applyPair (t : Table) (p : String × String) : Option Table :=
  match colIdx t p.2 with
  | none => some t
  | some j =>
    match colIdx t "Country" with
    | none => none
    | some jc => some { t with rows := t.rows.map (blankRow jc j p.1) }

/-- One override pair, Clean_Data.py variant: `df["Country"]` is evaluated
first (KeyError if absent); `df.loc[idx, cat] = np.nan` with `cat` not in
the columns performs pandas setting-with-enlargement, creating the column
with every cell missing. -/
def applyPairMerged (t : Table) (p : String × String) : Option Table :=
  match colIdx t "Country" with
  | none => none
  | some jc =>
    match colIdx t p.2 with
    | some j => some { t with rows := t.rows.map (blankRow jc j p.1) }
    | none => some { cols := t.cols ++ [p.2], rows := t.rows.map (fun r => r ++ [Cell.na]) }

/-- `df.drop(df[df["Country"] == country].index)`: drop every row whose
country matches; KeyError if there is no `Country` column. -/
def delOne (t : Table) (country : String) : Option Table :=
  match colIdx t "Country" with
  | none => none
  | some jc => some { t with rows := t.rows.filter (fun r => !(matchC jc country r)) }

def blankFold (t : Table) : List (String × String) → Option Table
  | [] => some t
  | p :: rest =>
    match applyPair t p with
    | none => none
    | some t2 => blankFold t2 rest

def blankFoldMerged (t : Table) : List (String × String) → Option Table
  | [] => some t
  | p :: rest =>
    match applyPairMerged t p with
    | none => none
    | some t2 => blankFoldMerged t2 rest

def delFold (t : Table) : List String → Option Table
  | [] => some t
  | c :: rest =>
    match delOne t c with
    | none => none
    | some t2 => delFold t2 rest

/-- `clean_outliers` of clean_data.py: blank every (country, column) pair of
the override list, then drop every row of the deletion list. -/
def clean_outliers (t : Table) (cl : List (String × String)) (dl : List String) : Option Table :=
  match blankFold t cl with
  | none => none
  | some t2 => delFold t2 dl

/-- `clean_outliers` of Clean_Data.py (no column-presence guard). -/
def clean_outliers_merged (t : Table) (cl : List (String × String)) (dl : List String) :
    Option Table :=
  match blankFoldMerged t cl with
  | none => none
  | some t2 => delFold t2 dl

/-! ### Configured pipeline (`load_and_clean_separate`) -/

def exclude_cols : List String :=
  ["Country", "internet_country_code", "Fiscal_Year", "Geographic_Coordinates", "Capital",
    "Capital_Coordinates"]

def clean_list : List (String × String) :=
  [("EUROPEAN UNION", "Birth_Rate"),
    ("EUROPEAN UNION", "Death_Rate"),
    ("EUROPEAN UNION", "Total_Fertility_Rate"),
    ("EUROPEAN UNION", "Male_Literacy_Rate"),
    ("EUROPEAN UNION", "Female_Literacy_Rate"),
    ("TOKELAU", "Death_Rate"),
    ("TOKELAU", "Real_GDP_PPP_billion_USD"),
    ("TOKELAU", "Budget_billion_USD"),
    ("TOKELAU", "Exports_billion_USD")]

def del_list : List String := []

/-- The parametrized Dataset Cleaner: normalization and coercion over the
requested columns, then the override step. -/
def cleanPipeline (t : Table) (cat : List String) (cl : List (String × String))
    (dl : List String) : Option Table :=
  match data_cleaner t cat with
  | none => none
  | some u => clean_outliers u cl dl

/-- The per-dataset loop body of `load_and_clean_separate`: target columns
are all columns not in the exclusion set, then `data_cleaner` and
`clean_outliers` with the configured override lists. -/
def clean_one_dataset (t : Table) : Option Table :=
  cleanPipeline t (t.cols.filter (fun c => !(exclude_cols.contains c))) clean_list del_list

/-! ### Generic list lemmas -/

theorem hl_set_getD {α : Type} (l : List α) (j : Nat) (d : α) :
    l.set j (l.getD j d) = l := by
  induction l generalizing j with
  | nil => simp
  | cons a l ih =>
    cases j with
    | zero => simp
    | succ j => simpa using ih j

theorem hl_getD_set_ne {α : Type} (l : List α) (j k : Nat) (v d : α) (h : k ≠ j) :
    (l.set j v).getD k d = l.getD k d := by
  induction l generalizing j k with
  | nil => simp
  | cons a l ih =>
    cases j with
    | zero =>
      cases k with
      | zero => exact absurd rfl h
      | succ k => simp
    | succ j =>
      cases k with
      | zero => simp
      | succ k => simpa using ih j k (fun e => h (by omega))

theorem hl_getD_set_cases {α : Type} (l : List α) (j : Nat) (v d : α) :
    (l.set j v).getD j d = v ∨ (l.set j v).getD j d = d := by
  induction l generalizing j with
  | nil => simp
  | cons a l ih =>
    cases j with
    | zero => simp
    | succ j => simpa using ih j

theorem hl_map_eq_self {α : Type} (l : List α) (f : α → α) (h : ∀ a ∈ l, f a = a) :
    l.map f = l := by
  induction l with
  | nil => rfl
  | cons a l ih =>
    simp only [List.map_cons, List.cons.injEq]
    exact ⟨h a (by simp), ih (fun a ha => h a (by simp [ha]))⟩

theorem hl_filter_eq_self {α : Type} (l : List α) (p : α → Bool) (h : ∀ a ∈ l, p a = true) :
    l.filter p = l := by
  induction l with
  | nil => rfl
  | cons a l ih =>
    simp only [List.filter_cons, h a (by simp), if_true]
    exact congrArg (a :: ·) (ih (fun a ha => h a (by simp [ha])))

theorem hl_filter_comm {α : Type} (l : List α) (p q : α → Bool) :
    (l.filter p).filter q = (l.filter q).filter p := by
  induction l with
  | nil => rfl
  | cons a l ih =>
    by_cases hp : p a <;> by_cases hq : q a <;> simp [List.filter_cons, hp, hq, ih]

theorem hl_idxOf?_get (c : String) (l : List String) (j : Nat) (h : idxOf? c l = some j) :
    l.get? j = some c := by
  induction l generalizing j with
  | nil => simp [idxOf?] at h
  | cons a l ih =>
    by_cases ha : a = c
    · simp [idxOf?, ha] at h
      subst h
      simp [ha]
    · simp only [idxOf?, beq_iff_eq, ha, if_false, Option.map_eq_some'] at h
      obtain ⟨j', hj', rfl⟩ := h
      simpa using ih j' hj'

/-! ### Cell-level lemmas -/

theorem nc_numeric (g h : Bool) (tp : Option Cell) (c : Cell) (hc : numericOrNa c = true) :
    normalizeCell g h tp c = c := by
  cases c <;> simp [normalizeCell] <;> simp [numericOrNa] at hc

theorem tn_numeric (c : Cell) (hc : numericOrNa c = true) : toNumericCell c = c := by
  cases c <;> simp [toNumericCell] <;> simp [numericOrNa] at hc

theorem tn_output (c : Cell) : numericOrNa (toNumericCell c) = true := by
  cases c with
  | na => rfl
  | num q => rfl
  | str s => cases h : parseF? s <;> simp [toNumericCell, h, numericOrNa]

/-! ### Row relation: a row obtained by blanking some cells of another -/

/-- `rowLE r0 r`: `r` has the cells of `r0` except that some may have been
replaced by the missing marker. -/
def rowLE (r0 r : List Cell) : Prop :=
  ∀ k, r.getD k Cell.na = r0.getD k Cell.na ∨ r.getD k Cell.na = Cell.na

theorem rowLE_refl (r : List Cell) : rowLE r r := fun _ => Or.inl rfl

theorem rowLE_trans {r0 r1 r2 : List Cell} (h1 : rowLE r0 r1) (h2 : rowLE r1 r2) :
    rowLE r0 r2 := by
  intro k
  rcases h2 k with h | h
  · rw [h]; exact h1 k
  · exact Or.inr h

theorem rowLE_set_na (r : List Cell) (j : Nat) : rowLE r (r.set j Cell.na) := by
  intro k
  by_cases hk : k = j
  · subst hk
    rcases hl_getD_set_cases r k Cell.na Cell.na with h | h <;> exact Or.inr h
  · exact Or.inl (hl_getD_set_ne r j k Cell.na Cell.na hk)

theorem rowLE_blankRow (jc j : Nat) (c : String) (r : List Cell) :
    rowLE r (blankRow jc j c r) := by
  unfold blankRow
  by_cases h : matchC jc c r <;> simp [h]
  · exact rowLE_set_na r j
  · exact rowLE_refl r

theorem matchC_of_rowLE {r0 r : List Cell} (h : rowLE r0 r) (jc : Nat) (c : String)
    (hm : matchC jc c r = true) : matchC jc c r0 = true := by
  unfold matchC at hm ⊢
  rcases h jc with he | he
  · rw [← he]; exact hm
  · rw [he] at hm; simp at hm

theorem numericOrNa_of_rowLE {r0 r : List Cell} (h : rowLE r0 r) (k : Nat)
    (hn : numericOrNa (r0.getD k Cell.na) = true) : numericOrNa (r.getD k Cell.na) = true := by
  rcases h k with he | he
  · rw [he]; exact hn
  · rw [he]; rfl

/-- Every row of `rs` is some row of `rs0` with some cells blanked. -/
def rowsLE (rs0 rs : List (List Cell)) : Prop :=
  ∀ r ∈ rs, ∃ r0 ∈ rs0, rowLE r0 r

theorem rowsLE_refl (rs : List (List Cell)) : rowsLE rs rs :=
  fun r hr => ⟨r, hr, rowLE_refl r⟩

theorem rowsLE_trans {rs0 rs1 rs2 : List (List Cell)} (h1 : rowsLE rs0 rs1)
    (h2 : rowsLE rs1 rs2) : rowsLE rs0 rs2 := by
  intro r hr
  obtain ⟨r1, hr1, hle1⟩ := h2 r hr
  obtain ⟨r0, hr0, hle0⟩ := h1 r1 hr1
  exact ⟨r0, hr0, rowLE_trans hle0 hle1⟩

theorem rowsLE_map (rs : List (List Cell)) (f : List Cell → List Cell)
    (h : ∀ r, rowLE r (f r)) : rowsLE rs (rs.map f) := by
  intro r hr
  obtain ⟨r0, hr0, rfl⟩ := List.mem_map.mp hr
  exact ⟨r0, hr0, h r0⟩

theorem rowsLE_filter (rs : List (List Cell)) (p : List Cell → Bool) :
    rowsLE rs (rs.filter p) := by
  intro r hr
  exact ⟨r, List.mem_of_mem_filter hr, rowLE_refl r⟩

/-! ### Lemmas about the override step -/

theorem colIdx_congr {t u : Table} (h : u.cols = t.cols) (c : String) :
    colIdx u c = colIdx t c := by
  simp [colIdx, h]

theorem pna_mono {rs0 rs : List (List Cell)} (h : rowsLE rs0 rs) (jc j : Nat) (c : String)
    (hp : ∀ r ∈ rs0, matchC jc c r = true → r.getD j Cell.na = Cell.na) :
    ∀ r ∈ rs, matchC jc c r = true → r.getD j Cell.na = Cell.na := by
  intro r hr hm
  obtain ⟨r0, hr0, hle⟩ := h r hr
  have h0 := hp r0 hr0 (matchC_of_rowLE hle jc c hm)
  rcases hle j with he | he
  · rw [he, h0]
  · exact he

theorem matchF_mono {rs0 rs : List (List Cell)} (h : rowsLE rs0 rs) (jc : Nat) (c : String)
    (hp : ∀ r ∈ rs0, matchC jc c r = false) : ∀ r ∈ rs, matchC jc c r = false := by
  intro r hr
  obtain ⟨r0, hr0, hle⟩ := h r hr
  cases hm : matchC jc c r
  · rfl
  · exact absurd (matchC_of_rowLE hle jc c hm) (by simp [hp r0 hr0])

theorem ap_cols {t u : Table} {p : String × String} (h : applyPair t p = some u) :
    u.cols = t.cols := by
  unfold applyPair at h
  cases hj : colIdx t p.2 <;> rw [hj] at h
  · cases h; rfl
  · cases hjc : colIdx t "Country" <;> rw [hjc] at h
    · cases h
    · cases h; rfl

theorem ap_rowsLE {t u : Table} {p : String × String} (h : applyPair t p = some u) :
    rowsLE t.rows u.rows := by
  unfold applyPair at h
  cases hj : colIdx t p.2 <;> rw [hj] at h
  · cases h; exact rowsLE_refl _
  · cases hjc : colIdx t "Country" <;> rw [hjc] at h
    · cases h
    · cases h
      exact rowsLE_map _ _ (rowLE_blankRow _ _ _)

theorem ap_establish {t u : Table} {p : String × String} (h : applyPair t p = some u)
    (j jc : Nat) (hj : colIdx t p.2 = some j) (hjc : colIdx t "Country" = some jc) :
    ∀ r ∈ u.rows, matchC jc p.1 r = true → r.getD j Cell.na = Cell.na := by
  unfold applyPair at h
  rw [hj, hjc] at h
  cases h
  intro r hr hm
  obtain ⟨r0, _, rfl⟩ := List.mem_map.mp hr
  unfold blankRow at hm ⊢
  cases hm0 : matchC jc p.1 r0
  · simp only [hm0] at hm
    simp at hm
    simp [hm] at hm0
  · simp only [hm0, if_true]
    rcases hl_getD_set_cases r0 j Cell.na Cell.na with he | he <;> exact he

theorem ap_someCountry {t u : Table} {p : String × String} (h : applyPair t p = some u)
    (hp : (colIdx t p.2).isSome) : (colIdx t "Country").isSome := by
  unfold applyPair at h
  cases hj : colIdx t p.2 <;> rw [hj] at h
  · rw [hj] at hp; simp at hp
  · cases hjc : colIdx t "Country" <;> rw [hjc] at h
    · cases h
    · simp

theorem ap_absent {t : Table} {p : String × String} (h : colIdx t p.2 = none) :
    applyPair t p = some t := by
  unfold applyPair
  rw [h]

theorem ap_id {t : Table} {p : String × String} (j jc : Nat) (hj : colIdx t p.2 = some j)
    (hjc : colIdx t "Country" = some jc)
    (hp : ∀ r ∈ t.rows, matchC jc p.1 r = true → r.getD j Cell.na = Cell.na) :
    applyPair t p = some t := by
  have hmap : t.rows.map (blankRow jc j p.1) = t.rows := by
    apply hl_map_eq_self
    intro r hr
    unfold blankRow
    cases hm : matchC jc p.1 r
    · simp
    · simp only [if_true]
      rw [show Cell.na = r.getD j Cell.na from (hp r hr hm).symm]
      exact hl_set_getD r j Cell.na
  unfold applyPair
  rw [hj, hjc]
  show some { t with rows := t.rows.map (blankRow jc j p.1) } = some t
  rw [hmap]

theorem bf_cols {cl : List (String × String)} :
    ∀ {t u : Table}, blankFold t cl = some u → u.cols = t.cols := by
  induction cl with
  | nil => intro t u h; cases h; rfl
  | cons p rest ih =>
    intro t u h
    unfold blankFold at h
    cases hap : applyPair t p <;> rw [hap] at h
    · cases h
    · rw [ih h, ap_cols hap]

theorem bf_rowsLE {cl : List (String × String)} :
    ∀ {t u : Table}, blankFold t cl = some u → rowsLE t.rows u.rows := by
  induction cl with
  | nil => intro t u h; cases h; exact rowsLE_refl _
  | cons p rest ih =>
    intro t u h
    unfold blankFold at h
    cases hap : applyPair t p <;> rw [hap] at h
    · cases h
    · exact rowsLE_trans (ap_rowsLE hap) (ih h)

theorem bf_establish {cl : List (String × String)} :
    ∀ {t u : Table}, blankFold t cl = some u → ∀ p ∈ cl, ∀ j jc,
      colIdx u p.2 = some j → colIdx u "Country" = some jc →
      ∀ r ∈ u.rows, matchC jc p.1 r = true → r.getD j Cell.na = Cell.na := by
  induction cl with
  | nil => intro t u _ p hp; simp at hp
  | cons q rest ih =>
    intro t u h p hp j jc hj hjc
    unfold blankFold at h
    cases hap : applyPair t q <;> rw [hap] at h
    · cases h
    · rename_i t1
      rcases List.mem_cons.mp hp with rfl | hp'
      · have hcols1 : u.cols = t1.cols := bf_cols h
        have hj1 : colIdx t1 p.2 = some j := by rw [← colIdx_congr hcols1]; exact hj
        have hjc1 : colIdx t1 "Country" = some jc := by rw [← colIdx_congr hcols1]; exact hjc
        have hj0 : colIdx t p.2 = some j := by
          rw [← colIdx_congr (ap_cols hap)]; exact hj1
        have hjc0 : colIdx t "Country" = some jc := by
          rw [← colIdx_congr (ap_cols hap)]; exact hjc1
        exact pna_mono (bf_rowsLE h) jc j p.1 (ap_establish hap j jc hj0 hjc0)
      · exact ih h p hp' j jc hj hjc

theorem bf_guards {cl : List (String × String)} :
    ∀ {t u : Table}, blankFold t cl = some u → ∀ p ∈ cl,
      (colIdx t p.2).isSome → (colIdx t "Country").isSome := by
  induction cl with
  | nil => intro t u _ p hp; simp at hp
  | cons q rest ih =>
    intro t u h p hp hcol
    unfold blankFold at h
    cases hap : applyPair t q <;> rw [hap] at h
    · cases h
    · rename_i t1
      rcases List.mem_cons.mp hp with rfl | hp'
      · exact ap_someCountry hap hcol
      · have hc1 : colIdx t1 p.2 = colIdx t p.2 := colIdx_congr (ap_cols hap) p.2
        have := ih h p hp' (by rw [hc1]; exact hcol)
        rw [colIdx_congr (ap_cols hap) "Country"] at this
        exact this

theorem bf_id {cl : List (String × String)} :
    ∀ {t : Table}, (∀ p ∈ cl, applyPair t p = some t) → blankFold t cl = some t := by
  induction cl with
  | nil => intro t _; rfl
  | cons q rest ih =>
    intro t h
    unfold blankFold
    rw [h q (by simp)]
    exact ih (fun p hp => h p (by simp [hp]))

theorem do_cols {t u : Table} {c : String} (h : delOne t c = some u) : u.cols = t.cols := by
  unfold delOne at h
  cases hjc : colIdx t "Country" <;> rw [hjc] at h
  · cases h
  · cases h; rfl

theorem do_rowsLE {t u : Table} {c : String} (h : delOne t c = some u) :
    rowsLE t.rows u.rows := by
  unfold delOne at h
  cases hjc : colIdx t "Country" <;> rw [hjc] at h
  · cases h
  · cases h; exact rowsLE_filter _ _

theorem do_establish {t u : Table} {c : String} (h : delOne t c = some u) (jc : Nat)
    (hjc : colIdx t "Country" = some jc) : ∀ r ∈ u.rows, matchC jc c r = false := by
  unfold delOne at h
  rw [hjc] at h
  cases h
  intro r hr
  have := List.of_mem_filter hr
  simpa using this

theorem do_someCountry {t u : Table} {c : String} (h : delOne t c = some u) :
    (colIdx t "Country").isSome := by
  unfold delOne at h
  cases hjc : colIdx t "Country" <;> rw [hjc] at h
  · cases h
  · simp

theorem do_id {t : Table} {c : String} (jc : Nat) (hjc : colIdx t "Country" = some jc)
    (hp : ∀ r ∈ t.rows, matchC jc c r = false) : delOne t c = some t := by
  have hf : t.rows.filter (fun r => !(matchC jc c r)) = t.rows :=
    hl_filter_eq_self _ _ (fun r hr => by simp [hp r hr])
  unfold delOne
  rw [hjc]
  show some { t with rows := t.rows.filter (fun r => !(matchC jc c r)) } = some t
  rw [hf]

theorem df_cols {dl : List String} :
    ∀ {t u : Table}, delFold t dl = some u → u.cols = t.cols := by
  induction dl with
  | nil => intro t u h; cases h; rfl
  | cons c rest ih =>
    intro t u h
    unfold delFold at h
    cases hdo : delOne t c <;> rw [hdo] at h
    · cases h
    · rw [ih h, do_cols hdo]

theorem df_rowsLE {dl : List String} :
    ∀ {t u : Table}, delFold t dl = some u → rowsLE t.rows u.rows := by
  induction dl with
  | nil => intro t u h; cases h; exact rowsLE_refl _
  | cons c rest ih =>
    intro t u h
    unfold delFold at h
    cases hdo : delOne t c <;> rw [hdo] at h
    · cases h
    · exact rowsLE_trans (do_rowsLE hdo) (ih h)

theorem df_establish {dl : List String} :
    ∀ {t u : Table}, delFold t dl = some u → ∀ c ∈ dl, ∀ jc,
      colIdx u "Country" = some jc → ∀ r ∈ u.rows, matchC jc c r = false := by
  induction dl with
  | nil => intro t u _ c hc; simp at hc
  | cons c0 rest ih =>
    intro t u h c hc jc hjc
    unfold delFold at h
    cases hdo : delOne t c0 <;> rw [hdo] at h
    · cases h
    · rename_i t1
      rcases List.mem_cons.mp hc with rfl | hc'
      · have hjc0 : colIdx t "Country" = some jc := by
          rw [← colIdx_congr (do_cols hdo), ← colIdx_congr (df_cols h)]
          exact hjc
        have hjc1 : colIdx t1 "Country" = some jc := by
          rw [← colIdx_congr (df_cols h)]; exact hjc
        exact matchF_mono (df_rowsLE h) jc c (do_establish hdo jc (by
          rw [← colIdx_congr (do_cols hdo)]; exact hjc1))
      · exact ih h c hc' jc hjc

theorem df_guards {dl : List String} :
    ∀ {t u : Table}, delFold t dl = some u → ∀ c ∈ dl,
      (colIdx t "Country").isSome := by
  induction dl with
  | nil => intro t u _ c hc; simp at hc
  | cons c0 rest ih =>
    intro t u h c hc
    unfold delFold at h
    cases hdo : delOne t c0 <;> rw [hdo] at h
    · cases h
    · exact do_someCountry hdo

theorem df_id {dl : List String} :
    ∀ {t : Table}, (∀ c ∈ dl, delOne t c = some t) → delFold t dl = some t := by
  induction dl with
  | nil => intro t _; rfl
  | cons c rest ih =>
    intro t h
    unfold delFold
    rw [h c (by simp)]
    exact ih (fun c hc => h c (by simp [hc]))

theorem co_cols {t u : Table} {cl : List (String × String)} {dl : List String}
    (h : clean_outliers t cl dl = some u) : u.cols = t.cols := by
  unfold clean_outliers at h
  cases hbf : blankFold t cl <;> rw [hbf] at h
  · cases h
  · rw [df_cols h, bf_cols hbf]

theorem co_rowsLE {t u : Table} {cl : List (String × String)} {dl : List String}
    (h : clean_outliers t cl dl = some u) : rowsLE t.rows u.rows := by
  unfold clean_outliers at h
  cases hbf : blankFold t cl <;> rw [hbf] at h
  · cases h
  · exact rowsLE_trans (bf_rowsLE hbf) (df_rowsLE h)

theorem co_establish_blank {t u : Table} {cl : List (String × String)} {dl : List String}
    (h : clean_outliers t cl dl = some u) : ∀ p ∈ cl, ∀ j jc,
      colIdx u p.2 = some j → colIdx u "Country" = some jc →
      ∀ r ∈ u.rows, matchC jc p.1 r = true → r.getD j Cell.na = Cell.na := by
  unfold clean_outliers at h
  cases hbf : blankFold t cl <;> rw [hbf] at h
  · cases h
  · rename_i t2
    intro p hp j jc hj hjc
    have hcols : u.cols = t2.cols := df_cols h
    exact pna_mono (df_rowsLE h) jc j p.1
      (bf_establish hbf p hp j jc (by rw [← colIdx_congr hcols]; exact hj)
        (by rw [← colIdx_congr hcols]; exact hjc))

theorem co_establish_del {t u : Table} {cl : List (String × String)} {dl : List String}
    (h : clean_outliers t cl dl = some u) : ∀ c ∈ dl, ∀ jc,
      colIdx u "Country" = some jc → ∀ r ∈ u.rows, matchC jc c r = false := by
  unfold clean_outliers at h
  cases hbf : blankFold t cl <;> rw [hbf] at h
  · cases h
  · exact df_establish h

theorem co_idem {t u : Table} {cl : List (String × String)} {dl : List String}
    (h : clean_outliers t cl dl = some u) : clean_outliers u cl dl = some u := by
  have hucols : u.cols = t.cols := co_cols h
  unfold clean_outliers at h
  cases hbf : blankFold t cl <;> rw [hbf] at h
  · cases h
  · rename_i t2
    have h2cols : t2.cols = t.cols := bf_cols hbf
    have hu2 : u.cols = t2.cols := df_cols h
    have hbfu : blankFold u cl = some u := by
      apply bf_id
      intro p hp
      cases hcol : colIdx u p.2 with
      | none => exact ap_absent hcol
      | some j =>
        have hct : (colIdx t "Country").isSome := by
          apply bf_guards hbf p hp
          rw [← colIdx_congr hucols]
          rw [hcol]
          rfl
        obtain ⟨jc, hjc⟩ := Option.isSome_iff_exists.mp hct
        have hjcu : colIdx u "Country" = some jc := by
          rw [colIdx_congr hucols]; exact hjc
        exact ap_id j jc hcol hjcu
          (co_establish_blank (by unfold clean_outliers; rw [hbf]; exact h) p hp j jc hcol hjcu)
    have hdfu : delFold u dl = some u := by
      apply df_id
      intro c hc
      have hct2 : (colIdx t2 "Country").isSome := df_guards h c hc
      obtain ⟨jc, hjc2⟩ := Option.isSome_iff_exists.mp hct2
      have hjcu : colIdx u "Country" = some jc := by
        rw [colIdx_congr hu2]; exact hjc2
      exact do_id jc hjcu (df_establish h c hc jc hjcu)
    unfold clean_outliers
    rw [hbfu]
    exact hdfu

/-! ### Lemmas about the Dataset Cleaner passes -/

theorem hl_map_congr {α β : Type} (l : List α) (f g : α → β) (h : ∀ a ∈ l, f a = g a) :
    l.map f = l.map g := by
  induction l with
  | nil => rfl
  | cons a l ih =>
    simp only [List.map_cons, List.cons.injEq]
    exact ⟨h a (by simp), ih (fun a ha => h a (by simp [ha]))⟩

theorem np_cols (g : Bool) (t : Table) (j : Nat) : (normalizePass g t j).cols = t.cols := rfl

theorem cp_cols (t : Table) (j : Nat) : (coercePass t j).cols = t.cols := rfl

theorem dc_step {t : Table} {i0 : String} {rest : List String} {j0 : Nat}
    (hj0 : colIdx t i0 = some j0) :
    data_cleaner t (i0 :: rest) = data_cleaner (coercePass (normalizePass true t j0) j0) rest := by
  conv_lhs => unfold data_cleaner
  rw [hj0]

theorem dc_none {t : Table} {i0 : String} {rest : List String}
    (hj0 : colIdx t i0 = none) : data_cleaner t (i0 :: rest) = none := by
  conv_lhs => unfold data_cleaner
  rw [hj0]

theorem np_id (g : Bool) (t : Table) (j : Nat)
    (hp : ∀ r ∈ t.rows, numericOrNa (r.getD j Cell.na) = true) :
    normalizePass g t j = t := by
  have hmap := hl_map_eq_self t.rows
    (fun row => row.set j (normalizeCell g (colIdx t "Total_Population").isSome
      ((colIdx t "Total_Population").bind (fun k => row.get? k)) (row.getD j Cell.na)))
    (fun r hr => by
      show r.set j (normalizeCell g (colIdx t "Total_Population").isSome
        ((colIdx t "Total_Population").bind (fun k => r.get? k)) (r.getD j Cell.na)) = r
      rw [nc_numeric _ _ _ _ (hp r hr)]
      exact hl_set_getD r j Cell.na)
  unfold normalizePass
  rw [hmap]

theorem cp_id (t : Table) (j : Nat)
    (hp : ∀ r ∈ t.rows, numericOrNa (r.getD j Cell.na) = true) :
    coercePass t j = t := by
  have hmap := hl_map_eq_self t.rows
    (fun row => row.set j (toNumericCell (row.getD j Cell.na)))
    (fun r hr => by
      show r.set j (toNumericCell (r.getD j Cell.na)) = r
      rw [tn_numeric _ (hp r hr)]
      exact hl_set_getD r j Cell.na)
  unfold coercePass
  rw [hmap]

theorem np_preserve (g : Bool) (t : Table) (j k : Nat)
    (hp : ∀ r ∈ t.rows, numericOrNa (r.getD k Cell.na) = true) :
    ∀ r ∈ (normalizePass g t j).rows, numericOrNa (r.getD k Cell.na) = true := by
  intro r hr
  unfold normalizePass at hr
  simp only [List.mem_map] at hr
  obtain ⟨r0, hr0, rfl⟩ := hr
  by_cases hk : k = j
  · subst hk
    rcases hl_getD_set_cases r0 k _ Cell.na with he | he
    · rw [he, nc_numeric _ _ _ _ (hp r0 hr0)]
      exact hp r0 hr0
    · rw [he]; rfl
  · rw [hl_getD_set_ne _ _ _ _ _ hk]
    exact hp r0 hr0

theorem cp_resolves (t : Table) (j : Nat) :
    ∀ r ∈ (coercePass t j).rows, numericOrNa (r.getD j Cell.na) = true := by
  intro r hr
  unfold coercePass at hr
  simp only [List.mem_map] at hr
  obtain ⟨r0, _, rfl⟩ := hr
  rcases hl_getD_set_cases r0 j _ Cell.na with he | he
  · rw [he]; exact tn_output _
  · rw [he]; rfl

theorem cp_preserve (t : Table) (j k : Nat)
    (hp : ∀ r ∈ t.rows, numericOrNa (r.getD k Cell.na) = true) :
    ∀ r ∈ (coercePass t j).rows, numericOrNa (r.getD k Cell.na) = true := by
  by_cases hk : k = j
  · subst hk; exact cp_resolves t k
  · intro r hr
    unfold coercePass at hr
    simp only [List.mem_map] at hr
    obtain ⟨r0, hr0, rfl⟩ := hr
    rw [hl_getD_set_ne _ _ _ _ _ hk]
    exact hp r0 hr0

theorem np_frame (g : Bool) (t : Table) (j k : Nat) (hk : k ≠ j) :
    colAt k (normalizePass g t j) = colAt k t := by
  unfold colAt normalizePass
  simp only [List.map_map, Function.comp]
  apply hl_map_congr
  intro r _
  exact hl_getD_set_ne r j k _ Cell.na hk

theorem cp_frame (t : Table) (j k : Nat) (hk : k ≠ j) :
    colAt k (coercePass t j) = colAt k t := by
  unfold colAt coercePass
  simp only [List.map_map, Function.comp]
  apply hl_map_congr
  intro r _
  exact hl_getD_set_ne r j k _ Cell.na hk

theorem dc_cols {cat : List String} :
    ∀ {t u : Table}, data_cleaner t cat = some u → u.cols = t.cols := by
  induction cat with
  | nil => intro t u h; cases h; rfl
  | cons i0 rest ih =>
    intro t u h
    cases hj0 : colIdx t i0 with
    | none => rw [dc_none hj0] at h; cases h
    | some j0 =>
      rw [dc_step hj0] at h
      rw [ih h]
      rfl

theorem dc_preserve {cat : List String} :
    ∀ {t u : Table}, data_cleaner t cat = some u → ∀ k,
      (∀ r ∈ t.rows, numericOrNa (r.getD k Cell.na) = true) →
      ∀ r ∈ u.rows, numericOrNa (r.getD k Cell.na) = true := by
  induction cat with
  | nil => intro t u h k hp; cases h; exact hp
  | cons i0 rest ih =>
    intro t u h k hp
    cases hj0 : colIdx t i0 with
    | none => rw [dc_none hj0] at h; cases h
    | some j0 =>
      rw [dc_step hj0] at h
      exact ih h k (cp_preserve _ j0 k (np_preserve true t j0 k hp))

theorem dc_resolves {cat : List String} :
    ∀ {t u : Table}, data_cleaner t cat = some u → ∀ i ∈ cat, ∀ j,
      colIdx u i = some j → ∀ r ∈ u.rows, numericOrNa (r.getD j Cell.na) = true := by
  induction cat with
  | nil => intro t u _ i hi; simp at hi
  | cons i0 rest ih =>
    intro t u h i hi j hj
    cases hj0 : colIdx t i0 with
    | none => rw [dc_none hj0] at h; cases h
    | some j0 =>
      rw [dc_step hj0] at h
      rcases List.mem_cons.mp hi with rfl | hi'
      · have hcols : u.cols = t.cols := by rw [dc_cols h]; rfl
        have hjj : j = j0 := by
          rw [colIdx_congr hcols, hj0] at hj
          cases hj; rfl
        subst hjj
        exact dc_preserve h j (cp_resolves (normalizePass true t j) j)
      · exact ih h i hi' j hj

theorem dc_some {cat : List String} :
    ∀ {t : Table}, (∀ i ∈ cat, (colIdx t i).isSome) → ∃ u, data_cleaner t cat = some u := by
  induction cat with
  | nil => intro t _; exact ⟨t, rfl⟩
  | cons i0 rest ih =>
    intro t hcat
    obtain ⟨j0, hj0⟩ := Option.isSome_iff_exists.mp (hcat i0 (by simp))
    have hrest : ∀ i ∈ rest, (colIdx (coercePass (normalizePass true t j0) j0) i).isSome := by
      intro i hi
      have hc : (coercePass (normalizePass true t j0) j0).cols = t.cols := rfl
      rw [colIdx_congr hc]
      exact hcat i (by simp [hi])
    obtain ⟨u, hu⟩ := ih hrest
    exact ⟨u, by rw [dc_step hj0]; exact hu⟩

theorem dc_id {cat : List String} :
    ∀ {t : Table},
      (∀ i ∈ cat, ∃ j, colIdx t i = some j ∧
        ∀ r ∈ t.rows, numericOrNa (r.getD j Cell.na) = true) →
      data_cleaner t cat = some t := by
  induction cat with
  | nil => intro t _; rfl
  | cons i0 rest ih =>
    intro t hcat
    obtain ⟨j0, hj0, hnum⟩ := hcat i0 (by simp)
    have hnp : normalizePass true t j0 = t := np_id true t j0 hnum
    have hcp : coercePass (normalizePass true t j0) j0 = t := by rw [hnp]; exact cp_id t j0 hnum
    rw [dc_step hj0, hcp]
    exact ih (fun i hi => hcat i (by simp [hi]))

theorem dc_frame {cat : List String} :
    ∀ {t u : Table}, data_cleaner t cat = some u → ∀ k c,
      t.cols.get? k = some c → c ∉ cat → colAt k u = colAt k t := by
  induction cat with
  | nil => intro t u h k c _ _; cases h; rfl
  | cons i0 rest ih =>
    intro t u h k c hkc hc
    cases hj0 : colIdx t i0 with
    | none => rw [dc_none hj0] at h; cases h
    | some j0 =>
      rw [dc_step hj0] at h
      have hji : t.cols.get? j0 = some i0 := hl_idxOf?_get i0 t.cols j0 hj0
      have hkj : k ≠ j0 := by
        intro hkj
        rw [hkj, hji] at hkc
        cases hkc
        exact hc (by simp)
      have h1 : colAt k (coercePass (normalizePass true t j0) j0) = colAt k t := by
        rw [cp_frame _ j0 k hkj, np_frame true t j0 k hkj]
      have h2 := ih h k c (by
        have hcs : (coercePass (normalizePass true t j0) j0).cols = t.cols := rfl
        rw [hcs]; exact hkc) (fun hmem => hc (by simp [hmem]))
      rw [h2, h1]

/-! ### Branch-reduction lemmas for the Field Normalizer -/

theorem nc_str (g h : Bool) (tp : Option Cell) (s : String) (hs : parseF? s = none) :
    normalizeCell g h tp (Cell.str s) =
      match innerBranches g h tp (stripUnits s) with
      | some c => c
      | none => Cell.str s := by
  have he : normalizeCell g h tp (Cell.str s) =
      match parseF? s with
      | some q => Cell.num q
      | none =>
        match innerBranches g h tp (stripUnits s) with
        | some c => c
        | none => Cell.str s := rfl
  rw [he, hs]

theorem ib_illion (g h : Bool) (tp : Option Cell) (v : String)
    (hv : strContains v "illion" = true) :
    innerBranches g h tp v =
      (parseF? (strReplace v "illion" "")).map (fun q => Cell.num (ratMulNat q 1000000)) := by
  unfold innerBranches
  rw [hv]
  simp

theorem ib_rest (g h : Bool) (tp : Option Cell) (v : String)
    (hill : strContains v "illion" = false) (hpct : strContains v "(percentage)" = false) :
    innerBranches g h tp v = restBranches v := by
  unfold innerBranches
  rw [hill, hpct]
  simp

theorem dc_guards {cat : List String} :
    ∀ {t u : Table}, data_cleaner t cat = some u → ∀ i ∈ cat, (colIdx t i).isSome := by
  induction cat with
  | nil => intro t u _ i hi; simp at hi
  | cons i0 rest ih =>
    intro t u h i hi
    cases hj0 : colIdx t i0 with
    | none => rw [dc_none hj0] at h; cases h
    | some j0 =>
      rw [dc_step hj0] at h
      rcases List.mem_cons.mp hi with rfl | hi'
      · rw [hj0]; rfl
      · have := ih h i hi'
        have hcs : (coercePass (normalizePass true t j0) j0).cols = t.cols := rfl
        rw [colIdx_congr hcs] at this
        exact this

/-! ### Frame lemmas for the override step -/

theorem ap_frame {t u : Table} {p : String × String} (h : applyPair t p = some u) (k : Nat)
    (c : String) (hkc : t.cols.get? k = some c) (hpc : p.2 ≠ c) : colAt k u = colAt k t := by
  unfold applyPair at h
  cases hj : colIdx t p.2 <;> rw [hj] at h
  · cases h; rfl
  · rename_i j
    cases hjc : colIdx t "Country" <;> rw [hjc] at h
    · cases h
    · rename_i jc
      cases h
      have hji : t.cols.get? j = some p.2 := hl_idxOf?_get p.2 t.cols j hj
      have hkj : k ≠ j := by
        intro hkj
        rw [hkj, hji] at hkc
        cases hkc
        exact hpc rfl
      unfold colAt
      simp only [List.map_map, Function.comp]
      apply hl_map_congr
      intro r _
      show (if matchC jc p.1 r = true then r.set j Cell.na else r).getD k Cell.na
        = r.getD k Cell.na
      by_cases hm : matchC jc p.1 r = true
      · rw [if_pos hm]
        exact hl_getD_set_ne r j k _ Cell.na hkj
      · rw [if_neg hm]

theorem bf_frame {cl : List (String × String)} :
    ∀ {t u : Table}, blankFold t cl = some u → ∀ k c, t.cols.get? k = some c →
      (∀ p ∈ cl, p.2 ≠ c) → colAt k u = colAt k t := by
  induction cl with
  | nil => intro t u h k c _ _; cases h; rfl
  | cons q rest ih =>
    intro t u h k c hkc hpc
    unfold blankFold at h
    cases hap : applyPair t q <;> rw [hap] at h
    · cases h
    · rename_i t1
      have h1 : colAt k t1 = colAt k t := ap_frame hap k c hkc (hpc q (by simp))
      have h2 : colAt k u = colAt k t1 := by
        apply ih h k c
        · rw [ap_cols hap]; exact hkc
        · exact fun p hp => hpc p (by simp [hp])
      rw [h2, h1]

/-! ### Merged-variant identity lemmas -/

theorem apm_id {t : Table} {p : String × String} (j jc : Nat)
    (hjc : colIdx t "Country" = some jc) (hj : colIdx t p.2 = some j)
    (hp : ∀ r ∈ t.rows, matchC jc p.1 r = true → r.getD j Cell.na = Cell.na) :
    applyPairMerged t p = some t := by
  have hmap : t.rows.map (blankRow jc j p.1) = t.rows := by
    apply hl_map_eq_self
    intro r hr
    unfold blankRow
    cases hm : matchC jc p.1 r
    · simp
    · simp only [if_true]
      rw [show Cell.na = r.getD j Cell.na from (hp r hr hm).symm]
      exact hl_set_getD r j Cell.na
  unfold applyPairMerged
  rw [hjc, hj]
  show some { t with rows := t.rows.map (blankRow jc j p.1) } = some t
  rw [hmap]

theorem bfm_id {cl : List (String × String)} :
    ∀ {t : Table}, (∀ p ∈ cl, applyPairMerged t p = some t) → blankFoldMerged t cl = some t := by
  induction cl with
  | nil => intro t _; rfl
  | cons q rest ih =>
    intro t h
    unfold blankFoldMerged
    rw [h q (by simp)]
    exact ih (fun p hp => h p (by simp [hp]))

/-! ### Pipeline step lemmas -/

theorem cpl_step {t mid : Table} {cat : List String} {cl : List (String × String)}
    {dl : List String} (hdc : data_cleaner t cat = some mid) :
    cleanPipeline t cat cl dl = clean_outliers mid cl dl := by
  conv_lhs => unfold cleanPipeline
  rw [hdc]

theorem cpl_none {t : Table} {cat : List String} {cl : List (String × String)}
    {dl : List String} (hdc : data_cleaner t cat = none) :
    cleanPipeline t cat cl dl = none := by
  conv_lhs => unfold cleanPipeline
  rw [hdc]

/-! ### Single-character replacement is a character filter -/

theorem replaceAllAux_singleton (c : Char) :
    ∀ (fuel : Nat) (l : List Char), l.length ≤ fuel →
      replaceAllAux [c] [] fuel l = l.filter (fun a => !(a == c)) := by
  intro fuel
  induction fuel with
  | zero =>
    intro l hl
    cases l with
    | nil => rfl
    | cons a rest => simp at hl
  | succ fuel ih =>
    intro l hl
    cases l with
    | nil => rfl
    | cons a rest =>
      have hr : rest.length ≤ fuel := by
        simp only [List.length_cons] at hl
        omega
      by_cases hca : c = a
      · subst hca
        simp [replaceAllAux, begins, List.filter_cons, ih rest hr]
      · have hb : (c == a) = false := by simp [hca]
        simp [replaceAllAux, begins, List.filter_cons, hb, Ne.symm hca, ih rest hr]

theorem replaceAll_singleton (c : Char) (l : List Char) :
    replaceAll [c] [] l = l.filter (fun a => !(a == c)) :=
  replaceAllAux_singleton c l.length l (Nat.le_refl _)

/-! ### Claim C1 -/

/-- C1 (counterexample): the claim says the Dataset Cleaner never raises on
bad cell content, any unresolved cell being converted to missing by the
column-level coercion.  The merged variant (Clean_Data.py) coerces with
`astype(float)`, which raises on the residual text "abc" (modelled as
`none`), while the per-dataset variant (clean_data.py) coerces it to
missing as the claim describes. -/
theorem C1_merged_astype_raises :
    data_cleaner_merged ⟨["A"], [[Cell.str "abc"]]⟩ ["A"] = none ∧
    data_cleaner ⟨["A"], [[Cell.str "abc"]]⟩ ["A"] = some ⟨["A"], [[Cell.na]]⟩ := by decide

/-- C1 (amended): the per-dataset cleaner (clean_data.py), whose column
coercion is `pd.to_numeric(errors='coerce')`, never raises on cell content:
on any table whose requested columns exist it returns a table of the same
shape in which every cell of every requested column is a float or the
missing marker — never residual text. -/
theorem C1_per_dataset_cleaner_total (t : Table) (cat : List String)
    (hcat : ∀ i ∈ cat, (colIdx t i).isSome) :
    ∃ u, data_cleaner t cat = some u ∧ u.cols = t.cols ∧
      ∀ i ∈ cat, ∀ j, colIdx u i = some j →
        ∀ r ∈ u.rows, numericOrNa (r.getD j Cell.na) = true := by
  obtain ⟨u, hu⟩ := dc_some hcat
  exact ⟨u, hu, dc_cols hu, dc_resolves hu⟩

/-- C1 witness: the amended theorem applied to a one-column table holding
the unresolvable cell "abc". -/
theorem C1_witness :
    ∃ u, data_cleaner ⟨["A"], [[Cell.str "abc"]]⟩ ["A"] = some u ∧
      u.cols = (⟨["A"], [[Cell.str "abc"]]⟩ : Table).cols ∧
      ∀ i ∈ ["A"], ∀ j, colIdx u i = some j →
        ∀ r ∈ u.rows, numericOrNa (r.getD j Cell.na) = true :=
  C1_per_dataset_cleaner_total ⟨["A"], [[Cell.str "abc"]]⟩ ["A"] (by decide)

/-! ### Claim C2 -/

/-- C2 (counterexample): the claim says "1.2 billion" normalizes to
1200000.0.  In the code, removing the suffix "illion" from "1.2 billion"
leaves "1.2 b", whose float parse raises, so the cell is left unresolved
and the coercion step turns it into missing — not 1200000.0. -/
theorem C2_billion_degrades_to_missing :
    normalizeCell true true none (Cell.str "1.2 billion") = Cell.str "1.2 billion" ∧
    data_cleaner ⟨["A"], [[Cell.str "1.2 billion"]]⟩ ["A"] = some ⟨["A"], [[Cell.na]]⟩ ∧
    data_cleaner ⟨["A"], [[Cell.str "1.2 billion"]]⟩ ["A"]
      ≠ some ⟨["A"], [[Cell.num 1200000]]⟩ := by decide

/-- C2 (amended): "2.5 million" is scaled by 1,000,000 (the earlier " m"
strip reduces " million" to "illion", so "2.5illion" loses its suffix and
parses), but "billion" is NOT treated identically: "1.2 billion" keeps a
residual "b" after the suffix strip, fails the float parse in every
normalizer variant and in any row context, and is coerced to missing. -/
theorem C2_million_scales_billion_fails :
    (∀ (g h : Bool) (tp : Option Cell),
      normalizeCell g h tp (Cell.str "2.5 million") = Cell.num 2500000) ∧
    (∀ (g h : Bool) (tp : Option Cell),
      normalizeCell g h tp (Cell.str "1.2 billion") = Cell.str "1.2 billion") ∧
    toNumericCell (Cell.str "1.2 billion") = Cell.na := by
  refine ⟨?_, ?_, by decide⟩ <;> intro g h tp <;>
    rw [nc_str g h tp _ (by decide), ib_illion g h tp _ (by decide)] <;> decide

/-! ### Claim C3 -/

/-- C3: with a same-row `Total_Population` of 1000000, the cell
"5 (percentage)" is parsed as a percentage, multiplied by the population
and rounded, giving 50000.0 — in both normalizer variants, at the cell
level and through the whole column cleaning. -/
theorem C3_percentage_of_base :
    (∀ g : Bool, normalizeCell g true (some (Cell.num 1000000)) (Cell.str "5 (percentage)")
      = Cell.num 50000) ∧
    data_cleaner ⟨["Total_Population", "Share"], [[Cell.num 1000000, Cell.str "5 (percentage)"]]⟩
        ["Share"]
      = some ⟨["Total_Population", "Share"], [[Cell.num 1000000, Cell.num 50000]]⟩ ∧
    data_cleaner_merged
        ⟨["Total_Population", "Share"], [[Cell.num 1000000, Cell.str "5 (percentage)"]]⟩
        ["Share"]
      = some ⟨["Total_Population", "Share"], [[Cell.num 1000000, Cell.num 50000]]⟩ := by decide

/-! ### Claim C4 -/

/-- C4 (counterexample): the five pre-branch replacements do not commute:
stripping "100 sq km" in the code's order yields "100", but applying the
" km" replacement before the " sq km" replacement yields "100 sq". -/
theorem C4_replacements_do_not_commute :
    stripUnits "100 sq km" = "100" ∧
    strReplace (strReplace (strReplace (strReplace (strReplace "100 sq km" "%" "") " km" "")
        " sq km" "") " m" "") "," "" = "100 sq" ∧
    ("100" : String) ≠ "100 sq" := by decide

/-- C4 (amended): the stripping is performed in the one fixed order of the
source — "%", " sq km", " km", " m", "," — and only the two
single-character replacements ("%" and ",") commute with each other;
reordering the overlapping unit suffixes can change the result. -/
theorem C4_fixed_order_stripping :
    (∀ s : String, stripUnits s =
      strReplace (strReplace (strReplace (strReplace (strReplace s "%" "") " sq km" "") " km" "")
        " m" "") "," "") ∧
    (∀ s : String, strReplace (strReplace s "%" "") "," ""
      = strReplace (strReplace s "," "") "%" "") := by
  constructor
  · intro s
    rfl
  · intro s
    apply congrArg String.mk
    show replaceAll [','] [] (replaceAll ['%'] [] s.toList)
      = replaceAll ['%'] [] (replaceAll [','] [] s.toList)
    rw [replaceAll_singleton, replaceAll_singleton, replaceAll_singleton, replaceAll_singleton]
    exact hl_filter_comm _ _ _

/-! ### Claim C5 -/

/-- C5 (counterexample): the claim says the percentage branch is skipped
(falling through to the later rules) whenever the table lacks
`Total_Population`.  Only the per-dataset variant (guard present) falls
through — "Democracy (percentage)" reaches the government rule and becomes
0; the merged variant enters the branch, its column lookup raises, and the
per-cell handler leaves the cell unresolved, so the whole merged cleaner
then aborts in its astype coercion. -/
theorem C5_merged_variant_does_not_fall_through :
    normalizeCell false false none (Cell.str "Democracy (percentage)")
      = Cell.str "Democracy (percentage)" ∧
    normalizeCell true false none (Cell.str "Democracy (percentage)") = Cell.num 0 ∧
    data_cleaner_merged ⟨["A"], [[Cell.str "Democracy (percentage)"]]⟩ ["A"] = none := by decide

/-- C5 (amended): on a table without `Total_Population`, the per-dataset
variant (guarded) skips the percentage branch and evaluates the remaining
rules on the stripped text; the merged variant (unguarded) enters the
branch and immediately fails the cell (KeyError caught by the per-cell
handler), regardless of the rest of the text. -/
theorem C5_guard_skip_vs_merged_failure (v : String)
    (hpct : strContains v "(percentage)" = true) (hill : strContains v "illion" = false) :
    innerBranches true false none v = restBranches v ∧
    innerBranches false false none v = none := by
  constructor
  · unfold innerBranches
    rw [hill, hpct]
    simp
  · unfold innerBranches
    rw [hill, hpct]
    simp only [Bool.false_eq_true, if_false, Bool.not_false, Bool.true_or, Bool.and_true,
      if_true]
    cases hp : parseF? (strReplace v " (percentage)" "") <;> simp

/-- C5 witness: the amended theorem at the cell text "NEGL (percentage)". -/
theorem C5_witness :
    innerBranches true false none "NEGL (percentage)" = restBranches "NEGL (percentage)" ∧
    innerBranches false false none "NEGL (percentage)" = none :=
  C5_guard_skip_vs_merged_failure "NEGL (percentage)" (by decide) (by decide)

/-! ### Claim C6 -/

/-- C6: after normalization, the override step blanks the listed
(country, column) cells (every surviving row of an override country has the
missing marker in the listed column), removes every row of each
deletion-list country, and does nothing else: every row of the output is a
row of the normalized table with some cells replaced by missing — the
override can undo a normalizer decision but never renormalizes a cell. -/
theorem C6_override_after_normalization (t mid out : Table) (cat : List String)
    (cl : List (String × String)) (dl : List String)
    (h1 : data_cleaner t cat = some mid) (h2 : clean_outliers mid cl dl = some out) :
    out.cols = mid.cols ∧
    (∀ p ∈ cl, ∀ j jc, colIdx out p.2 = some j → colIdx out "Country" = some jc →
      ∀ r ∈ out.rows, matchC jc p.1 r = true → r.getD j Cell.na = Cell.na) ∧
    (∀ c ∈ dl, ∀ jc, colIdx out "Country" = some jc →
      ∀ r ∈ out.rows, matchC jc c r = false) ∧
    (∀ r ∈ out.rows, ∃ r0 ∈ mid.rows, rowLE r0 r) :=
  ⟨co_cols h2, co_establish_blank h2, co_establish_del h2, co_rowsLE h2⟩

/-- C6 witness: a two-row table; the EUROPEAN UNION Birth_Rate cell is
blanked after normalizing "7,5" to 75, and the FOOLAND row is deleted. -/
theorem C6_witness :
    ∃ r0 ∈ (⟨["Country", "Birth_Rate"],
        [[Cell.str "EUROPEAN UNION", Cell.num 75], [Cell.str "FOOLAND", Cell.num 2]]⟩ :
        Table).rows, rowLE r0 [Cell.str "EUROPEAN UNION", Cell.na] :=
  (C6_override_after_normalization
    ⟨["Country", "Birth_Rate"],
      [[Cell.str "EUROPEAN UNION", Cell.str "7,5"], [Cell.str "FOOLAND", Cell.str "2"]]⟩
    ⟨["Country", "Birth_Rate"],
      [[Cell.str "EUROPEAN UNION", Cell.num 75], [Cell.str "FOOLAND", Cell.num 2]]⟩
    ⟨["Country", "Birth_Rate"], [[Cell.str "EUROPEAN UNION", Cell.na]]⟩
    ["Birth_Rate"] clean_list ["FOOLAND"] (by decide) (by decide)).2.2.2
    [Cell.str "EUROPEAN UNION", Cell.na] (by decide)

/-! ### Claim C7 -/

/-- The government-type mapping as an ordered (pattern, code) table. -/
def govTable : List (String × ℚ) :=
  [("Democracy", 0), ("Republic", 1), ("Theocracy", 2), ("Monarchy", 3), ("Communist", 4),
    ("Territory", 5), ("Other", 6)]

/-- C7: the government-type cascade is exactly first-match-wins over the
fixed ordered table Democracy→0, Republic→1, Theocracy→2, Monarchy→3,
Communist→4, Territory→5, Other→6; "Parliamentary Republic" normalizes to
1, "Absolute Monarchy" to 3, and any text containing both "Democracy" and
"Republic" maps to 0. -/
theorem C7_gov_first_match :
    (∀ v : String, govCode v = (govTable.find? (fun p => strContains v p.1)).map Prod.snd) ∧
    (∀ (g h : Bool) (tp : Option Cell),
      normalizeCell g h tp (Cell.str "Parliamentary Republic") = Cell.num 1 ∧
      normalizeCell g h tp (Cell.str "Absolute Monarchy") = Cell.num 3) ∧
    (∀ v : String, strContains v "Democracy" = true → strContains v "Republic" = true →
      govCode v = some 0) := by
  refine ⟨?_, ?_, ?_⟩
  · intro v
    unfold govCode govTable
    by_cases h1 : strContains v "Democracy"
    · simp [List.find?, h1]
    · by_cases h2 : strContains v "Republic"
      · simp [List.find?, h1, h2]
      · by_cases h3 : strContains v "Theocracy"
        · simp [List.find?, h1, h2, h3]
        · by_cases h4 : strContains v "Monarchy"
          · simp [List.find?, h1, h2, h3, h4]
          · by_cases h5 : strContains v "Communist"
            · simp [List.find?, h1, h2, h3, h4, h5]
            · by_cases h6 : strContains v "Territory"
              · simp [List.find?, h1, h2, h3, h4, h5, h6]
              · by_cases h7 : strContains v "Other"
                · simp [List.find?, h1, h2, h3, h4, h5, h6, h7]
                · simp [List.find?, h1, h2, h3, h4, h5, h6, h7]
  · intro g h tp
    constructor <;>
      rw [nc_str g h tp _ (by decide), ib_rest g h tp _ (by decide) (by decide)] <;> decide
  · intro v h1 _
    unfold govCode
    rw [h1]
    simp

/-- C7 witness: a text containing both "Democracy" and "Republic" maps to
the Democracy code 0. -/
theorem C7_witness : govCode "Democracy Republic" = some 0 :=
  C7_gov_first_match.2.2 "Democracy Republic" (by decide) (by decide)

/-! ### Claim C8 -/

/-- C8 (counterexample): the claim asserts the full cleaner (normalization,
coercion and override application) is a no-op on any table whose targeted
columns are already fully numeric.  A table holding a numeric
EUROPEAN UNION Birth_Rate is fully numeric, yet the override step blanks
that cell, so the output differs from the input. -/
theorem C8_override_breaks_noop :
    cleanPipeline ⟨["Country", "Birth_Rate"], [[Cell.str "EUROPEAN UNION", Cell.num 5]]⟩
        ["Birth_Rate"] clean_list del_list
      = some ⟨["Country", "Birth_Rate"], [[Cell.str "EUROPEAN UNION", Cell.na]]⟩ ∧
    (⟨["Country", "Birth_Rate"], [[Cell.str "EUROPEAN UNION", Cell.na]]⟩ : Table)
      ≠ ⟨["Country", "Birth_Rate"], [[Cell.str "EUROPEAN UNION", Cell.num 5]]⟩ := by decide

/-- C8 (amended): the Dataset Cleaner is idempotent on its own output: if
one full run (normalization, coercion, override application) produces `u`,
running the full cleaner again on `u` returns `u` unchanged — every value
already passes through rule 2 and the override list finds its cells
already missing and its deletion countries already gone. -/
theorem C8_pipeline_idempotent (t u : Table) (cat : List String)
    (cl : List (String × String)) (dl : List String)
    (h : cleanPipeline t cat cl dl = some u) :
    cleanPipeline u cat cl dl = some u := by
  cases hdc : data_cleaner t cat with
  | none => rw [cpl_none hdc] at h; cases h
  | some mid =>
    rw [cpl_step hdc] at h
    have hmidcols : mid.cols = t.cols := dc_cols hdc
    have hucols : u.cols = mid.cols := co_cols h
    have hdcu : data_cleaner u cat = some u := by
      apply dc_id
      intro i hi
      have hsome : (colIdx t i).isSome := dc_guards hdc i hi
      obtain ⟨j, hj⟩ := Option.isSome_iff_exists.mp hsome
      have hju : colIdx u i = some j := by
        rw [colIdx_congr hucols, colIdx_congr hmidcols]
        exact hj
      refine ⟨j, hju, ?_⟩
      intro r hr
      obtain ⟨r0, hr0, hle⟩ := co_rowsLE h r hr
      have hjm : colIdx mid i = some j := by
        rw [colIdx_congr hmidcols]
        exact hj
      exact numericOrNa_of_rowLE hle j (dc_resolves hdc i hi j hjm r0 hr0)
    rw [cpl_step hdcu]
    exact co_idem h

/-- C8 witness: the amended theorem applied to the output of a run that
normalized and then blanked the EUROPEAN UNION Birth_Rate cell. -/
theorem C8_witness :
    cleanPipeline ⟨["Country", "Birth_Rate"], [[Cell.str "EUROPEAN UNION", Cell.na]]⟩
        ["Birth_Rate"] clean_list del_list
      = some ⟨["Country", "Birth_Rate"], [[Cell.str "EUROPEAN UNION", Cell.na]]⟩ :=
  C8_pipeline_idempotent
    ⟨["Country", "Birth_Rate"], [[Cell.str "EUROPEAN UNION", Cell.num 5]]⟩
    ⟨["Country", "Birth_Rate"], [[Cell.str "EUROPEAN UNION", Cell.na]]⟩
    ["Birth_Rate"] clean_list del_list (by decide)

/-! ### Claim C9 -/

/-- C9: the per-dataset pipeline (exclusion-list target selection, then
`data_cleaner`, then the configured override step) keeps every column of
the input, and all excluded columns (country identifier, internet country
code, fiscal year, geographic coordinates text, capital name, capital
coordinates text) are textually unchanged cell-for-cell — neither the
normalizer nor the override step ever writes to them. -/
theorem C9_excluded_columns_unchanged (t u : Table) (h : clean_one_dataset t = some u) :
    u.cols = t.cols ∧ ∀ c ∈ exclude_cols, colCells u c = colCells t c := by
  unfold clean_one_dataset at h
  cases hdc : data_cleaner t (t.cols.filter (fun c => !(exclude_cols.contains c))) with
  | none => rw [cpl_none hdc] at h; cases h
  | some mid =>
    rw [cpl_step hdc] at h
    have hbf : blankFold mid clean_list = some u := by
      unfold clean_outliers at h
      cases hb : blankFold mid clean_list <;> rw [hb] at h
      · cases h
      · rename_i t2
        have h2 : t2 = u := Option.some.inj h
        subst h2
        rfl
    have hucols : u.cols = t.cols := by
      rw [bf_cols hbf, dc_cols hdc]
    refine ⟨hucols, ?_⟩
    intro c hc
    unfold colCells colIdx
    rw [hucols]
    cases hk : idxOf? c t.cols with
    | none => rfl
    | some k =>
      show colAt k u = colAt k t
      have hkc : t.cols.get? k = some c := hl_idxOf?_get c t.cols k hk
      have hnotcat : c ∉ t.cols.filter (fun x => !(exclude_cols.contains x)) := by
        intro hmem
        have hp := (List.mem_filter.mp hmem).2
        have hcontains : exclude_cols.contains c = true := by
          exact List.elem_eq_true_of_mem hc
        rw [hcontains] at hp
        cases hp
      have h1 : colAt k mid = colAt k t := dc_frame hdc k c hkc hnotcat
      have h2 : colAt k u = colAt k mid := by
        apply bf_frame hbf k c
        · rw [dc_cols hdc]
          exact hkc
        · have hall : ∀ c' ∈ exclude_cols, ∀ p ∈ clean_list, p.2 ≠ c' := by decide
          exact fun p hp => hall c hc p hp
      rw [h2, h1]

/-- C9 witness: the pipeline on a table with a country column and a NEGL
cell; the excluded Country column is untouched while Birth_Rate is
normalized to missing. -/
theorem C9_witness :
    (⟨["Country", "Birth_Rate"], [[Cell.str "X", Cell.na]]⟩ : Table).cols =
      (⟨["Country", "Birth_Rate"], [[Cell.str "X", Cell.str "NEGL"]]⟩ : Table).cols ∧
    ∀ c ∈ exclude_cols,
      colCells ⟨["Country", "Birth_Rate"], [[Cell.str "X", Cell.na]]⟩ c
        = colCells ⟨["Country", "Birth_Rate"], [[Cell.str "X", Cell.str "NEGL"]]⟩ c :=
  C9_excluded_columns_unchanged
    ⟨["Country", "Birth_Rate"], [[Cell.str "X", Cell.str "NEGL"]]⟩
    ⟨["Country", "Birth_Rate"], [[Cell.str "X", Cell.na]]⟩ (by decide)

/-! ### Claim C10 -/

/-- C10 (counterexample): the claim says an override pair whose country is
absent leaves the table completely unchanged in both variants.  In the
merged variant (Clean_Data.py, no column guard), a pair whose column is
also absent triggers pandas setting-with-enlargement: the column is
created, all-missing, so the table changes. -/
theorem C10_merged_creates_column :
    clean_outliers_merged ⟨["Country"], [[Cell.str "A"]]⟩ [("B", "X")] []
      = some ⟨["Country", "X"], [[Cell.str "A", Cell.na]]⟩ ∧
    clean_outliers_merged ⟨["Country"], [[Cell.str "A"]]⟩ [("B", "X")] []
      ≠ some ⟨["Country"], [[Cell.str "A"]]⟩ := by decide

/-- C10 (amended): when no override country and no deletion country occurs
in the Country column, the per-dataset override step returns the table
unchanged for any override list (absent columns are skipped outright,
before the Country lookup, and never created); the merged variant returns
the table unchanged provided every pair's column exists in the table. -/
theorem C10_absent_targets_leave_table_unchanged (t : Table) (cl : List (String × String))
    (dl : List String) (jc : Nat) (hjc : colIdx t "Country" = some jc)
    (hcl : ∀ p ∈ cl, ∀ r ∈ t.rows, matchC jc p.1 r = false)
    (hdl : ∀ c ∈ dl, ∀ r ∈ t.rows, matchC jc c r = false) :
    clean_outliers t cl dl = some t ∧
    (∀ p : String × String, colIdx t p.2 = none → applyPair t p = some t) ∧
    ((∀ p ∈ cl, (colIdx t p.2).isSome) → clean_outliers_merged t cl dl = some t) := by
  have hdf : delFold t dl = some t :=
    df_id (fun c hc => do_id jc hjc (hdl c hc))
  refine ⟨?_, fun p hp => ap_absent hp, ?_⟩
  · have hbf : blankFold t cl = some t := by
      apply bf_id
      intro p hp
      cases hcol : colIdx t p.2 with
      | none => exact ap_absent hcol
      | some j =>
        apply ap_id j jc hcol hjc
        intro r hr hm
        rw [hcl p hp r hr] at hm
        cases hm
    unfold clean_outliers
    rw [hbf]
    exact hdf
  · intro hcols
    have hbfm : blankFoldMerged t cl = some t := by
      apply bfm_id
      intro p hp
      obtain ⟨j, hj⟩ := Option.isSome_iff_exists.mp (hcols p hp)
      apply apm_id j jc hjc hj
      intro r hr hm
      rw [hcl p hp r hr] at hm
      cases hm
    unfold clean_outliers_merged
    rw [hbfm]
    exact hdf

/-- C10 witness: the configured override list and a deletion list applied
to a table whose only country is "X": nothing matches, nothing changes. -/
theorem C10_witness :
    clean_outliers ⟨["Country", "Birth_Rate"], [[Cell.str "X", Cell.num 5]]⟩ clean_list
        ["FOOLAND"]
      = some ⟨["Country", "Birth_Rate"], [[Cell.str "X", Cell.num 5]]⟩ :=
  (C10_absent_targets_leave_table_unchanged
    ⟨["Country", "Birth_Rate"], [[Cell.str "X", Cell.num 5]]⟩ clean_list ["FOOLAND"] 0
    (by decide) (by decide) (by decide)).1
